import Mathlib

/- Verification of the two-stage KYC image pipeline:
   `1_cv2_preprocess_and_stats.py` (Preprocessor) and
   `2_text_extraction_batch_and_stats.py` (Extractor).

   Python strings are modelled as lists of characters (`Str`); the model is
   faithful for ASCII data, which is all the repository manipulates.
   NumPy / CPython floating point is modelled exactly: IEEE binary64 values
   are dyadic rationals `m * 2 ^ e`, and every float operation rounds to 53
   significant bits with round-to-nearest, ties-to-even (type `D` below).
   The model covers the normal range of binary64, which contains every value
   arising for any realistic image dimension. -/

/- ==================================================================
   Part 0a: Python string primitives over `Str := List Char`
   ================================================================== -/

abbrev Str := List Char

/-- Python `str.lower()` (ASCII fragment). -/
def py_lower (s : Str) : Str := s.map Char.toLower

/-- Python `str.startswith(p)`. -/
def py_starts (s p : Str) : Bool := p.isPrefixOf s

/-- Python `str.endswith(p)`. -/
def py_ends (s p : Str) : Bool := p.isSuffixOf s

/-- Python `str.strip()`: drop leading and trailing whitespace. -/
def py_strip (s : Str) : Str :=
  ((s.dropWhile Char.isWhitespace).reverse.dropWhile Char.isWhitespace).reverse

/-- Python `str.splitlines()` restricted to `"\n"` newlines; on the strings it
is applied to here (non-empty, not ending in a newline) this agrees with
CPython, which otherwise also drops a final empty fragment. -/
def split_nl : Str → List Str
  | [] => [[]]
  | c :: rest =>
    match split_nl rest with
    | [] => [[c]]
    | l :: ls => if c = '\n' then [] :: l :: ls else (c :: l) :: ls

/-- Python `"\n".join(lines)`. -/
def join_nl : List Str → Str
  | [] => []
  | [l] => l
  | l :: ls => l ++ '\n' :: join_nl ls

/-- Lexicographic (code-point) order on strings, as used by Python `list.sort()`. -/
def str_le : Str → Str → Bool
  | [], _ => true
  | _ :: _, [] => false
  | a :: as, b :: bs => if a = b then str_le as bs else decide (a < b)

/- ==================================================================
   Part 0b: exact model of IEEE binary64 arithmetic (normal range)
   ================================================================== -/

/-- Base-2 integer logarithm: for `1 ≤ n`, `2 ^ ilog2 n ≤ n < 2 ^ (ilog2 n + 1)`.
Structural recursion on a fuel argument that always suffices. -/
def ilog2Aux : ℕ → ℕ → ℕ
  | 0, _ => 0
  | fuel + 1, n => if n ≤ 1 then 0 else ilog2Aux fuel (n / 2) + 1

def ilog2 (n : ℕ) : ℕ := ilog2Aux n n

/-- Round the fraction `a / b` (with `b > 0`) to the nearest integer,
ties to even. -/
def roundHEN (a b : ℕ) : ℕ :=
  let q := a / b
  let r := a % b
  if 2 * r < b then q
  else if b < 2 * r then q + 1
  else if q % 2 = 0 then q else q + 1

/-- A dyadic rational `m * 2 ^ e`: the exact value of an IEEE binary64. -/
structure D where
  m : ℤ
  e : ℤ
  deriving DecidableEq

/-- The rational value of a dyadic. -/
def toRat (d : D) : ℚ := d.m * (2 : ℚ) ^ d.e

/-- The binary exponent of the positive fraction `a / b`:
`2 ^ flExpFrac a b ≤ a / b < 2 ^ (flExpFrac a b + 1)`. -/
def flExpFrac (a b : ℕ) : ℤ :=
  (ilog2 (a * 2 ^ (ilog2 b + 1) / b) : ℤ) - ((ilog2 b + 1 : ℕ) : ℤ)

/-- Correctly rounded binary64 of the fraction `a / b` (`a, b > 0`):
round-to-nearest-even at 53 significant bits.  This is exactly what CPython
computes for `a / b` on ints (true division). -/
def flFrac (a b : ℕ) : D :=
  if 0 ≤ 52 - flExpFrac a b then
    ⟨roundHEN (a * 2 ^ (52 - flExpFrac a b).toNat) b, flExpFrac a b - 52⟩
  else
    ⟨roundHEN a (b * 2 ^ (flExpFrac a b - 52).toNat), flExpFrac a b - 52⟩

/-- Round a nonnegative dyadic `m * 2 ^ e` to 53 significant bits. -/
def flDyadic (m : ℕ) (e : ℤ) : D :=
  if ilog2 m ≤ 52 then ⟨m, e⟩
  else ⟨roundHEN m (2 ^ (ilog2 m - 52)), e + (ilog2 m - 52)⟩

/-- IEEE binary64 multiplication of nonnegative dyadics: exact product, then
one rounding. -/
def fmulD (x y : D) : D := flDyadic (x.m * y.m).toNat (x.e + y.e)

/-- Conversion `float(n)` of a nonnegative int (rounds once iff `n ≥ 2 ^ 53`). -/
def floatD (n : ℕ) : D := flDyadic n 0

/-- Python `int(x)` on a nonnegative float: truncation toward zero. -/
def truncD (d : D) : ℤ :=
  if 0 ≤ d.e then d.m * 2 ^ d.e.toNat else d.m / (2 : ℤ) ^ (-d.e).toNat

/- ==================================================================
   Part 1: `1_cv2_preprocess_and_stats.py`
   ================================================================== -/

/-- The selection predicate of lines 91-94 (and of line 29 of the second
script): `f.lower().endswith(("png", "jpg", "jpeg"))` — a case-insensitive
suffix test on the three literal strings, with no dot involved. -/
def image_filter (f : Str) : Bool :=
  py_ends (py_lower f) ("png".toList) ||
  py_ends (py_lower f) ("jpg".toList) ||
  py_ends (py_lower f) ("jpeg".toList)

/-- `all_images` of the Preprocessor (lines 91-98): filter the directory
listing by `image_filter`, then `all_images.sort()`. -/
def all_images (listing : List Str) : List Str :=
  List.insertionSort (fun a b => str_le a b = true) (listing.filter image_filter)

/-- Offset selection of `main` (lines 120-126): 20 for filenames starting
with "license", 30 for "passport" (case-insensitive), otherwise 0. -/
def offset_for (filename : Str) : ℤ :=
  let filename_lower := py_lower filename
  if py_starts filename_lower ("license".toList) then 20
  else if py_starts filename_lower ("passport".toList) then 30
  else 0

/-- An image matrix shape: `image.shape[:2] = (h, w)`. -/
structure Mat where
  h : ℕ
  w : ℕ
  deriving DecidableEq

/-- `resize_image` (lines 24-33): if `w > 4000` then
`ratio = 4000 / w` (binary64), `new_size = (int(w * ratio), int(h * ratio))`
passed to `cv2.resize` as `(width, height)`; otherwise unchanged.
`4000 / w` is CPython int true division (one correctly rounded binary64);
`w * ratio` converts `w` to float and performs one binary64 multiplication. -/
def resize_image (image : Mat) : Mat :=
  if 4000 < image.w then
    ⟨(truncD (fmulD (floatD image.h) (flFrac 4000 image.w))).toNat,
     (truncD (fmulD (floatD image.w) (flFrac 4000 image.w))).toNat⟩
  else image

/-- `mean_val = int(gray.mean())` (line 59) on a grayscale pixel array:
the arithmetic mean truncated to an integer.  (NumPy computes the mean in
binary64; for any image below 2 ^ 46 pixels the float mean truncates to the
same integer as the exact mean, so the model uses the exact mean.) -/
def mean_val (gray : List ℕ) : ℕ := gray.sum / gray.length

/-- `threshold_val = max(0, min(255, mean_val - offset))` (line 60). -/
def threshold_val (gray : List ℕ) (offset : ℤ) : ℤ :=
  max 0 (min 255 ((mean_val gray : ℤ) - offset))

/-- `cv2.threshold(gray, thresh, maxval, cv2.THRESH_BINARY)` (line 63).
OpenCV semantics: `dst(x,y) = maxval if src(x,y) > thresh else 0` — the
comparison is strict. -/
def cv2_threshold_binary (gray : List ℕ) (thresh : ℤ) (maxval : ℕ) : List ℕ :=
  gray.map (fun (p : ℕ) => if thresh < (p : ℤ) then maxval else 0)

/-- Steps 4-5 of `preprocess_image` (lines 58-63): binarize the grayscale
image at the computed threshold. -/
def preprocess_binarize (gray : List ℕ) (offset : ℤ) : List ℕ :=
  cv2_threshold_binary gray (threshold_val gray offset) 255

/-- Accumulation of `combined_original_size` over the main loop (line 142). -/
def combined_original_size (sizes : List (ℕ × ℕ)) : ℕ :=
  sizes.foldl (fun acc p => acc + p.1) 0

/-- Accumulation of `combined_final_size` over the main loop (line 143). -/
def combined_final_size (sizes : List (ℕ × ℕ)) : ℕ :=
  sizes.foldl (fun acc p => acc + p.2) 0

/-- `size_reduced = combined_original_size - combined_final_size` (line 157),
Python int arithmetic (may be negative). -/
def size_reduced (sizes : List (ℕ × ℕ)) : ℤ :=
  (combined_original_size sizes : ℤ) - (combined_final_size sizes : ℤ)

/-- `size_reduced_pct` (lines 158-161):
`100.0 * (1 - final / original)` when the original total is positive, else 0.
(The Python expression is evaluated in binary64; the model uses the exact
rational value, which agrees to 15 significant digits.) -/
def size_reduced_pct (sizes : List (ℕ × ℕ)) : ℚ :=
  if 0 < combined_original_size sizes then
    100 * (1 - (combined_final_size sizes : ℚ) / (combined_original_size sizes : ℚ))
  else 0

/- ==================================================================
   Part 2: `2_text_extraction_batch_and_stats.py`
   ================================================================== -/

/-- `image_files` (line 29): the same case-insensitive suffix filter as the
Preprocessor, applied to the directory listing — note: *not* sorted. -/
def image_files (listing : List Str) : List Str := listing.filter image_filter

/-- id_type detection from the filename (lines 76-81). -/
def id_type_for (f : Str) : Str :=
  if py_starts (py_lower f) ("license".toList) then "drivers_license".toList
  else if py_starts (py_lower f) ("passport".toList) then "passport".toList
  else "N/A".toList

/-- The fixed instruction prompt (lines 36-65). -/
def instructions_text : Str :=
  ("We have multiple ID images. For each image, extract all text in an organized way. I don\x27t need a physical description of the person. I only want these printed text fields:\n\nFirst name, Last name, Date of birth (DOB), Address, State, Country, Drivers license (DL) number or passport number, Sex, Height (HGT), Weight (WGT), Hair, Eyes, Issue date (ISS), Expiration date (EXP).\n\nFor any missing fields, respond with \x27N/A\x27. Please return the final result in JSON, as an array of objects. Each object should correspond to a single image and have the structure:\n\n  \x7b\n    \"filename\": <string>,\n    \"id_type\": <string>,\n    \"id_number\": <string>,\n    \"first_name\": <string>,\n    \"last_name\": <string>,\n    \"dob\": <string>,\n    \"place of birth\": <string>,\n    \"address\": <string>,\n    \"state\": <string>,\n    \"country\": <string>,\n    \"class\": <string>,\n    \"sex\": <string>,\n    \"hgt\": <string>,\n    \"wgt\": <string>,\n    \"hair\": <string>,\n    \"eyes\": <string>,\n    \"issue_date_iss\": <string>,\n    \"expiration_date_exp\": <string>\n  \x7d\nUse snake_case for the JSON keys, as shown above.").toList

/-- The per-image caption block (lines 95-101). -/
def caption_for (image_file : Str) : Str :=
  ("This image is named ").toList ++ image_file ++
  (". The ID type for this image is ").toList ++ id_type_for image_file ++
  (". Extract the text and include the correct \x27id_type\x27 in the JSON output.").toList

/-- The base64 data URI of line 91, `encoded` being the base64 payload. -/
def data_url (encoded : Str) : Str := ("data:image/jpeg;base64,").toList ++ encoded

/-- A content block of the multimodal request (`"type": "text"` or
`"type": "image_url"`). -/
inductive Block where
  | text : Str → Block
  | image_url : Str → Block
  deriving DecidableEq

/-- `batch_content` (lines 35-101): start with the single instruction text
block, then for each file of `image_files` — in listing order — append an
image block and a caption block.  `encode f` stands for the base64 encoding
of the bytes of file `f`. -/
def batch_content (files : List Str) (encode : Str → Str) : List Block :=
  files.foldl
    (fun acc f =>
      acc ++ [Block.image_url (data_url (encode f)), Block.text (caption_for f)])
    [Block.text instructions_text]

/-- The fence test of line 160:
`content_str.startswith("```") and content_str.endswith("```")`. -/
def fenced (s : Str) : Bool :=
  py_starts s ("```".toList) && py_ends s ("```".toList)

/-- Lines 159-164: strip the reply, and if it is fenced remove the first and
last lines (`lines[1:-1]`), re-join and strip again. -/
def content_str_of (content : Str) : Str :=
  let s := py_strip content
  if fenced s then py_strip (join_nl (((split_nl s).drop 1).dropLast)) else s

/-- One object of the extracted JSON array; fields other than `id_type` and
`id_number` pass through untouched and are collected in `rest`. -/
structure Record where
  id_type : Option Str
  id_number : Option Str
  rest : List (Str × Str)
  deriving DecidableEq

/-- The digit subsequence of a string (line 176).  `Char.isDigit` models
`str.isdigit` on the ASCII data in scope. -/
def digits_of (s : Str) : Str := s.filter Char.isDigit

/-- Lines 172-178: for an item whose `id_type` is `"passport"`, replace
`id_number` by its digit subsequence truncated to 9 characters. -/
def postprocess_item (item : Record) : Record :=
  if item.id_type = some ("passport").toList then
    let original_id := item.id_number.getD []
    let digits_only := digits_of original_id
    { item with id_number := some (digits_only.take 9) }
  else item

/-- The per-item loop of lines 172-180 over the parsed array. -/
def extracted_postprocess (batch : List Record) : List Record :=
  batch.map postprocess_item

/-- The parsed JSON body of a 200 response: the assistant contents
(`choices[i].message.content`) and the optional `usage` counters. -/
structure ResponseJson where
  choices : List Str
  usage_prompt : Option ℕ
  usage_completion : Option ℕ
  usage_total : Option ℕ
  deriving DecidableEq

/-- An HTTP response; `body = none` models a 200 body that is not valid JSON
(so `response.json()` raises). -/
structure HttpResponse where
  status_code : ℕ
  text : Str
  body : Option ResponseJson
  deriving DecidableEq

/-- The only runtime error reachable in the response handler: line 217
evaluates the name `error_msg`, which is bound nowhere in the script. -/
inductive PyErr where
  | nameError
  deriving DecidableEq

/-- What the handler appends to `results/text_extracted_results.txt`
(timing/format details of the lines are abstracted; §1 of the spec excludes
logging format from scope). `perf_stats n k` stands for lines 195-199 with
`n` images and `k` API calls; `usage_stats p c t` for lines 202-205. -/
inductive FileWrite where
  | note : Str → FileWrite
  | record_json : Record → FileWrite
  | perf_stats : ℕ → ℕ → FileWrite
  | usage_stats : ℕ → ℕ → ℕ → FileWrite
  deriving DecidableEq

/-- Outcome of the response-handling block (lines 146-223). -/
structure ExtractorRun where
  writes : List FileWrite
  records : List Record
  usage : Option (ℕ × ℕ × ℕ)
  err : Option PyErr
  deriving DecidableEq

/-- Line 186. -/
def invalid_json_note : Str :=
  ("The assistant response was not valid JSON.\n").toList

/-- Line 208. -/
def response_parse_error_note : Str :=
  ("Error: Unable to parse response as JSON.\n").toList

/-- The response handler (lines 146-223).  `parse` models `json.loads`
specialised to an array of objects (`none` = `json.JSONDecodeError`).
On a 200 response with JSON body: extract `choices[0]`, strip fences, parse;
on success post-process and write each record, on failure write the
parse-failure note; in both cases (and with missing/empty `choices`) write
the performance and usage statistics.  On a 200 response whose body is not
JSON: write the outer error note, counters zero, no statistics.  On any
non-200 response: line 216 prints, then line 217 reads the undefined name
`error_msg` and the script dies with a `NameError` — nothing is written to
the results file and the usage counters are never defined. -/
def run_response (resp : HttpResponse) (parse : Str → Option (List Record))
    (num_images : ℕ) : ExtractorRun :=
  if resp.status_code = 200 then
    match resp.body with
    | none =>
      { writes := [FileWrite.note response_parse_error_note], records := [],
        usage := some (0, 0, 0), err := none }
    | some rj =>
      let step : List Record × List FileWrite :=
        match rj.choices.head? with
        | none => ([], [])
        | some content =>
          match parse (content_str_of content) with
          | some extracted_batch =>
            let processed := extracted_batch.map postprocess_item
            (processed, processed.map FileWrite.record_json)
          | none => ([], [FileWrite.note invalid_json_note])
      let prompt_tokens := rj.usage_prompt.getD 0
      let completion_tokens := rj.usage_completion.getD 0
      let total_tokens := rj.usage_total.getD 0
      { writes := step.2 ++
          [FileWrite.perf_stats num_images 1,
           FileWrite.usage_stats prompt_tokens completion_tokens total_tokens],
        records := step.1,
        usage := some (prompt_tokens, completion_tokens, total_tokens),
        err := none }
  else
    { writes := [], records := [], usage := none, err := some PyErr.nameError }

/-- The claim-side fence-stripping transformation of spec §4.3: if the
(stripped) reply both starts and ends with the fence marker, remove exactly
the first and last lines; otherwise leave it unmodified. -/
def spec_fence_strip (t : Str) : Str :=
  if fenced t then join_nl (((split_nl t).drop 1).dropLast) else t

/-- Observer: the image payloads of a content array, in order. -/
def image_urls : List Block → List Str
  | [] => []
  | Block.image_url u :: rest => u :: image_urls rest
  | Block.text _ :: rest => image_urls rest

/- ==================================================================
   Part 3: helper lemmas
   ================================================================== -/

lemma foldl_add_fst (l : List (ℕ × ℕ)) :
    ∀ a : ℕ, l.foldl (fun acc p => acc + p.1) a = a + (l.map Prod.fst).sum := by
  induction l with
  | nil => intro a; simp
  | cons x xs ih => intro a; simp [List.foldl_cons, ih, Nat.add_assoc]

lemma foldl_add_snd (l : List (ℕ × ℕ)) :
    ∀ a : ℕ, l.foldl (fun acc p => acc + p.2) a = a + (l.map Prod.snd).sum := by
  induction l with
  | nil => intro a; simp
  | cons x xs ih => intro a; simp [List.foldl_cons, ih, Nat.add_assoc]

lemma combined_original_eq_sum (sizes : List (ℕ × ℕ)) :
    combined_original_size sizes = (sizes.map Prod.fst).sum := by
  simpa using foldl_add_fst sizes 0

lemma combined_final_eq_sum (sizes : List (ℕ × ℕ)) :
    combined_final_size sizes = (sizes.map Prod.snd).sum := by
  simpa using foldl_add_snd sizes 0

/- ==================================================================
   Claim C1 — binarization at the threshold boundary
   ================================================================== -/

/-- C1 (counterexample): the grayscale image `[100]` with offset 0 has
computed threshold 100; its single pixel is `≥` the threshold, yet the
binarization maps it to 0, not 255: `cv2.THRESH_BINARY` compares strictly. -/
theorem binarize_equal_pixel_counterexample :
    threshold_val [100] 0 = 100 ∧
    preprocess_binarize [100] 0 = [0] ∧
    preprocess_binarize [100] 0 ≠ [255] := by decide

/-- C1 (amended): binarization maps each pixel strictly greater than the
computed threshold to 255 and every other pixel — including one exactly
equal to the threshold — to 0. -/
theorem binarize_le_black_gt_white :
    ∀ (gray : List ℕ) (offset : ℤ),
      preprocess_binarize gray offset
        = gray.map fun (p : ℕ) =>
            if (p : ℤ) ≤ threshold_val gray offset then 0 else 255 := by
  intro gray offset
  unfold preprocess_binarize cv2_threshold_binary
  have h : (fun p : ℕ => if threshold_val gray offset < (p : ℤ) then (255 : ℕ) else 0)
      = fun p : ℕ => if (p : ℤ) ≤ threshold_val gray offset then (0 : ℕ) else 255 := by
    funext p
    rcases le_or_lt ((p : ℤ)) (threshold_val gray offset) with h1 | h1
    · rw [if_neg (not_lt.mpr h1), if_pos h1]
    · rw [if_pos h1, if_neg (not_le.mpr h1)]
  rw [h]

/- ==================================================================
   Claim C3 — non-200 response handling dies on an undefined name
   ================================================================== -/

/-- C3 (code bug, evaluated at the failing input): on a 500 response the
handler writes nothing to the results file, defines no usage counters, and
raises `NameError` (line 217 reads `error_msg`, which is never assigned),
contradicting the comments at lines 220-223 of the script. -/
theorem non200_response_name_error :
    run_response ⟨500, ("Internal Server Error").toList, none⟩ (fun _ => none) 2
      = ⟨[], [], none, some PyErr.nameError⟩ := by decide

/- ==================================================================
   Claim C4 — aggregate size-reduction statistics
   ================================================================== -/

/-- C4 (counterexample): for original sizes `[1000, 2000]` and final sizes
`[400, 600]` the combined reduction is 2000 bytes but the percentage is
`100 * (1 - 1000/3000) = 200/3 ≈ 66.67 %`, not the claimed 33.33 %. -/
theorem aggregate_pct_counterexample :
    size_reduced [(1000, 400), (2000, 600)] = 2000 ∧
    size_reduced_pct [(1000, 400), (2000, 600)] = 200 / 3 ∧
    size_reduced_pct [(1000, 400), (2000, 600)] ≠ 3333 / 100 := by
  refine ⟨by decide, ?_, ?_⟩ <;>
    simp [size_reduced_pct, combined_original_size, combined_final_size,
      List.foldl_cons, List.foldl_nil] <;> norm_num

/-- C4 (amended): the absolute reduction is the difference of the summed
sizes and the percentage is `100 * (1 - final/original)` (0 when the
original total is 0); on the example batch the reduction is 2000 bytes and
the percentage `200/3` (≈ 66.67 %). -/
theorem aggregate_size_reduction_formula :
    ∀ sizes : List (ℕ × ℕ),
      size_reduced sizes
          = ((sizes.map Prod.fst).sum : ℤ) - ((sizes.map Prod.snd).sum : ℤ) ∧
      size_reduced_pct sizes
          = (if (sizes.map Prod.fst).sum = 0 then 0
             else 100 * (1 - ((sizes.map Prod.snd).sum : ℚ)
                              / ((sizes.map Prod.fst).sum : ℚ))) ∧
      size_reduced [(1000, 400), (2000, 600)] = 2000 ∧
      size_reduced_pct [(1000, 400), (2000, 600)] = 200 / 3 := by
  intro sizes
  refine ⟨?_, ?_, by decide, ?_⟩
  · rw [size_reduced, combined_original_eq_sum, combined_final_eq_sum]
  · rw [size_reduced_pct, combined_original_eq_sum, combined_final_eq_sum]
    rcases Nat.eq_zero_or_pos (sizes.map Prod.fst).sum with h | h
    · rw [if_neg (by omega), if_pos h]
    · rw [if_pos h, if_neg (by omega)]
  · simp [size_reduced_pct, combined_original_size, combined_final_size,
      List.foldl_cons, List.foldl_nil]
    norm_num

/- ==================================================================
   Claim C7 — passport id_number post-processing
   ================================================================== -/

/-- C7: a record is rewritten exactly when its `id_type` is `"passport"`:
`id_number` becomes the digit subsequence of the original value truncated
to 9 characters (a subsequence of the original, all digits, length ≤ 9,
kept whole when fewer than 9 digits exist); all other records pass through
unchanged.  `"P-12 34A5678B90"` becomes `"123456789"`. -/
theorem passport_id_postprocess :
    (∀ item : Record,
        postprocess_item item =
          if item.id_type = some ("passport").toList then
            { item with
                id_number := some ((digits_of (item.id_number.getD [])).take 9) }
          else item) ∧
    (∀ s : Str, List.Sublist ((digits_of s).take 9) s) ∧
    (∀ s : Str, ((digits_of s).take 9).length ≤ 9) ∧
    (∀ s : Str, ∀ c ∈ (digits_of s).take 9, c.isDigit = true) ∧
    (∀ s : Str, (digits_of s).length ≤ 9 → (digits_of s).take 9 = digits_of s) ∧
    postprocess_item ⟨some ("passport").toList, some ("P-12 34A5678B90").toList, []⟩
      = ⟨some ("passport").toList, some ("123456789").toList, []⟩ ∧
    postprocess_item ⟨some ("passport").toList, some ("A1-2b3").toList, []⟩
      = ⟨some ("passport").toList, some ("123").toList, []⟩ ∧
    postprocess_item
        ⟨some ("drivers_license").toList, some ("P-12 34A5678B90").toList, []⟩
      = ⟨some ("drivers_license").toList, some ("P-12 34A5678B90").toList, []⟩ := by
  refine ⟨fun item => rfl, fun s => ?_, fun s => ?_, fun s => ?_, fun s h => ?_,
    by decide, by decide, by decide⟩
  · exact ((digits_of s).take_sublist 9).trans (List.filter_sublist s)
  · simp [List.length_take]
  · intro c hc
    exact List.of_mem_filter ((List.take_subset 9 (digits_of s)) hc)
  · exact List.take_of_length_le h

/-- C7 (witness): the fewer-than-9-digits clause applied to `"A1-2b3"`. -/
theorem passport_id_postprocess_witness :
    (digits_of ("A1-2b3").toList).take 9 = digits_of ("A1-2b3").toList :=
  passport_id_postprocess.2.2.2.2.1 (("A1-2b3").toList) (by decide)

/- ==================================================================
   Claim C9 — recovery from an unparseable model reply
   ================================================================== -/

/-- C9: on a 200 response whose assistant content does not parse as JSON
(after fence stripping), the run emits zero records, writes the explicit
parse-failure note, still writes the performance and token-usage
statistics, and does not abort. -/
theorem parse_failure_recovered :
    ∀ (content text : Str) (choicesTail : List Str)
      (p c t : Option ℕ) (parse : Str → Option (List Record)) (n : ℕ),
      parse (content_str_of content) = none →
      run_response ⟨200, text, some ⟨content :: choicesTail, p, c, t⟩⟩ parse n
        = ⟨[FileWrite.note invalid_json_note,
            FileWrite.perf_stats n 1,
            FileWrite.usage_stats (p.getD 0) (c.getD 0) (t.getD 0)],
           [], some (p.getD 0, c.getD 0, t.getD 0), none⟩ := by
  intro content text choicesTail p c t parse n h
  simp [run_response, h]

/-- C9 (witness): a concrete unparseable reply. -/
theorem parse_failure_recovered_witness :
    run_response
        ⟨200, [], some ⟨("I cannot read these images.").toList :: [], some 12, some 3, some 15⟩⟩
        (fun _ => none) 3
      = ⟨[FileWrite.note invalid_json_note,
          FileWrite.perf_stats 3 1,
          FileWrite.usage_stats 12 3 15],
         [], some (12, 3, 15), none⟩ :=
  parse_failure_recovered _ _ _ _ _ _ _ _ rfl

/- ==================================================================
   Claim C10 — selection purely by case-insensitive literal suffix
   ================================================================== -/

/-- C10: both components select exactly the listing entries whose lowercased
name ends in one of the literal strings "png", "jpg", "jpeg" (no dot
involved): `"scanpng"` is selected, while files with any other ending are
excluded from the processing domain and hence never read or decoded. -/
theorem image_selection_by_suffix :
    (∀ (listing : List Str) (f : Str),
        f ∈ image_files listing ↔ f ∈ listing ∧ image_filter f = true) ∧
    (∀ (listing : List Str) (f : Str),
        f ∈ all_images listing ↔ f ∈ listing ∧ image_filter f = true) ∧
    image_filter (("scanpng").toList) = true ∧
    image_filter (("ID_SCAN.JPeG").toList) = true ∧
    image_filter (("scan_png.txt").toList) = false ∧
    image_filter (("notes.md").toList) = false := by
  refine ⟨fun listing f => ?_, fun listing f => ?_, by decide, by decide,
    by decide, by decide⟩
  · simp [image_files, List.mem_filter]
  · rw [all_images]
    exact (List.perm_insertionSort _ _).mem_iff.trans (by simp [List.mem_filter])

/- ==================================================================
   Claim C5 — threshold = clamp(trunc(mean) - offset, 0, 255)
   ================================================================== -/

lemma natCast_div_eq_floor (a b : ℕ) :
    ((a / b : ℕ) : ℤ) = ⌊(a : ℚ) / (b : ℚ)⌋ := by
  have h := Rat.floor_intCast_div_natCast (a : ℤ) b
  rw [Int.natCast_div, ← h]
  norm_num

lemma offset_for_eq (filename : Str) :
    offset_for filename =
      if py_starts (py_lower filename) (("license").toList) then 20
      else if py_starts (py_lower filename) (("passport").toList) then 30
      else 0 := rfl

lemma passport_not_license (s : Str) :
    py_starts s (("passport").toList) = true →
    py_starts s (("license").toList) = false := by
  intro h
  rw [py_starts, List.isPrefixOf_iff_prefix] at h
  rw [py_starts]
  rw [Bool.eq_false_iff]
  intro h2
  rw [List.isPrefixOf_iff_prefix] at h2
  cases s with
  | nil => simp at h
  | cons c cs =>
    rw [show ("passport").toList = 'p' :: ("assport").toList from rfl,
      List.cons_prefix_cons] at h
    rw [show ("license").toList = 'l' :: ("icense").toList from rfl,
      List.cons_prefix_cons] at h2
    have : ('p' : Char) = 'l' := h.1.trans h2.1.symm
    exact absurd this (by decide)

/-- C5: the binarization threshold is
`clamp(trunc(mean(gray)) - offset, 0, 255)` where the mean is the exact
arithmetic mean of the grayscale pixels and the offset is the pure,
case-insensitive function of the filename prefix: 20 for "license",
30 for "passport", 0 otherwise. -/
theorem threshold_clamped_mean_minus_offset :
    ∀ (gray : List ℕ) (filename : Str),
      threshold_val gray (offset_for filename)
          = max 0 (min 255
              (⌊(gray.sum : ℚ) / (gray.length : ℚ)⌋ - offset_for filename)) ∧
      (py_starts (py_lower filename) (("license").toList) = true →
        offset_for filename = 20) ∧
      (py_starts (py_lower filename) (("passport").toList) = true →
        offset_for filename = 30) ∧
      (py_starts (py_lower filename) (("license").toList) = false →
        py_starts (py_lower filename) (("passport").toList) = false →
        offset_for filename = 0) := by
  intro gray filename
  refine ⟨?_, fun h => ?_, fun h => ?_, fun h1 h2 => ?_⟩
  · rw [threshold_val, mean_val, natCast_div_eq_floor]
  · rw [offset_for_eq, if_pos h]
  · have hl := passport_not_license _ h
    rw [offset_for_eq, if_neg (by rw [hl]; decide), if_pos h]
  · rw [offset_for_eq, if_neg (by rw [h1]; decide), if_neg (by rw [h2]; decide)]

/-- C5 (witness): the offset clauses at the spec's three example filenames,
and the threshold formula on a concrete grayscale image. -/
theorem threshold_clamped_witness :
    offset_for (("LICENSE_01.jpg").toList) = 20 ∧
    offset_for (("passport_scan.png").toList) = 30 ∧
    offset_for (("selfie.jpg").toList) = 0 ∧
    threshold_val [10, 25] (offset_for (("selfie.jpg").toList))
        = max 0 (min 255
            (⌊(([10, 25] : List ℕ).sum : ℚ) / (([10, 25] : List ℕ).length : ℚ)⌋
              - offset_for (("selfie.jpg").toList))) :=
  ⟨(threshold_clamped_mean_minus_offset [] _).2.1 (by decide),
   (threshold_clamped_mean_minus_offset [] _).2.2.1 (by decide),
   (threshold_clamped_mean_minus_offset [] _).2.2.2 (by decide) (by decide),
   (threshold_clamped_mean_minus_offset [10, 25] _).1⟩

/- ==================================================================
   Claim C8 — fence stripping of the model reply
   ================================================================== -/

/-- C8: the parser's input is exactly the claim's transformation of the
stripped reply: when the stripped reply both starts and ends with the fence
marker, the first and last lines are removed (the code additionally trims
the surrounding whitespace of the result, which a JSON parser ignores);
with at most a single unbalanced marker the fence step leaves the stripped
reply unmodified and it is parsed as-is. -/
theorem fence_strip_refinement :
    ∀ content : Str,
      (fenced (py_strip content) = true →
        content_str_of content
          = py_strip (spec_fence_strip (py_strip content))) ∧
      (fenced (py_strip content) = false →
        content_str_of content = spec_fence_strip (py_strip content)) := by
  intro content
  constructor <;> intro h <;> simp [content_str_of, spec_fence_strip, h]

/-- C8 (witness): a fenced reply is stripped to its middle lines; a reply
with a single trailing (unbalanced) marker passes through unmodified. -/
theorem fence_strip_refinement_witness :
    content_str_of (("```json\n[\"ok\"]\n```").toList)
        = py_strip (spec_fence_strip (py_strip (("```json\n[\"ok\"]\n```").toList))) ∧
    content_str_of (("  [1, 2] ```").toList)
        = spec_fence_strip (py_strip (("  [1, 2] ```").toList)) :=
  ⟨(fence_strip_refinement _).1 (by decide),
   (fence_strip_refinement _).2 (by decide)⟩

/- ==================================================================
   Claim C2 — request structure and image ordering
   ================================================================== -/

lemma batch_content_eq (files : List Str) (encode : Str → Str) :
    batch_content files encode
      = Block.text instructions_text ::
          files.flatMap (fun f =>
            [Block.image_url (data_url (encode f)), Block.text (caption_for f)]) := by
  have key : ∀ (fs : List Str) (acc : List Block),
      fs.foldl (fun acc f =>
          acc ++ [Block.image_url (data_url (encode f)), Block.text (caption_for f)]) acc
        = acc ++ fs.flatMap (fun f =>
            [Block.image_url (data_url (encode f)), Block.text (caption_for f)]) := by
    intro fs
    induction fs with
    | nil => intro acc; simp
    | cons g gs ih =>
      intro acc
      rw [List.foldl_cons, ih, List.flatMap_cons, List.append_assoc]
  rw [batch_content, key, List.singleton_append]

lemma caption_ne_instructions (f : Str) : caption_for f ≠ instructions_text := by
  intro h
  have h2 := congrArg List.head? h
  rw [show (caption_for f).head? = some 'T' from rfl] at h2
  rw [show instructions_text.head? = some 'W' from rfl] at h2
  simp at h2

lemma count_instr_flatMap (encode : Str → Str) :
    ∀ fs : List Str,
      (fs.flatMap (fun f =>
          [Block.image_url (data_url (encode f)), Block.text (caption_for f)])).count
        (Block.text instructions_text) = 0 := by
  intro fs
  induction fs with
  | nil => rfl
  | cons g gs ih =>
    rw [List.flatMap_cons, List.count_append, ih, Nat.add_zero]
    rw [List.count_cons, List.count_cons, List.count_nil]
    have e1 : (Block.image_url (data_url (encode g)) == Block.text instructions_text)
        = false := by
      rw [beq_eq_false_iff_ne]
      intro h; cases h
    have e2 : (Block.text (caption_for g) == Block.text instructions_text) = false := by
      rw [beq_eq_false_iff_ne]
      intro h
      exact caption_ne_instructions g (by injection h)
    rw [e1, e2]
    rfl

lemma image_urls_flatMap (encode : Str → Str) :
    ∀ fs : List Str,
      image_urls (fs.flatMap (fun f =>
          [Block.image_url (data_url (encode f)), Block.text (caption_for f)]))
        = fs.map (fun f => data_url (encode f)) := by
  intro fs
  induction fs with
  | nil => rfl
  | cons g gs ih =>
    rw [List.flatMap_cons, List.cons_append, List.cons_append, List.nil_append]
    rw [image_urls, image_urls, ih, List.map_cons]

/-- C2 (counterexample): with the directory enumeration `["b.jpg", "a.jpg"]`
the image blocks appear in the order `b, a` — the listing order, which is
not the sorted (lexicographic) order `a, b`: line 29 of the script never
sorts `image_files`. -/
theorem batch_order_counterexample :
    image_urls (batch_content
        (image_files [("b.jpg").toList, ("a.jpg").toList]) (fun f => f))
      = [data_url (("b.jpg").toList), data_url (("a.jpg").toList)] ∧
    str_le (("a.jpg").toList) (("b.jpg").toList) = true ∧
    ("a.jpg").toList ≠ ("b.jpg").toList ∧
    image_urls (batch_content
        (image_files [("b.jpg").toList, ("a.jpg").toList]) (fun f => f))
      ≠ [data_url (("a.jpg").toList), data_url (("b.jpg").toList)] := by
  refine ⟨by decide, by decide, by decide, by decide⟩

/-- C2 (amended): for every non-empty file list, the request content is the
single instruction block followed, for each file in the listing's
enumeration order (the code does not sort), by an image payload block and a
caption block; the instruction block occurs exactly once, and the image
payloads are exactly the files' data URIs in listing order. -/
theorem batch_structure_in_listing_order :
    ∀ (files : List Str) (encode : Str → Str), files ≠ [] →
      batch_content files encode
        = Block.text instructions_text ::
            files.flatMap (fun f =>
              [Block.image_url (data_url (encode f)), Block.text (caption_for f)]) ∧
      (batch_content files encode).count (Block.text instructions_text) = 1 ∧
      image_urls (batch_content files encode)
        = files.map (fun f => data_url (encode f)) := by
  intro files encode _hne
  refine ⟨batch_content_eq files encode, ?_, ?_⟩
  · rw [batch_content_eq, List.count_cons_self, count_instr_flatMap]
  · rw [batch_content_eq, image_urls, image_urls_flatMap encode files]

/-- C2 (witness): the amended structure at the one-file listing. -/
theorem batch_structure_witness :
    batch_content [("a.jpg").toList] (fun f => f)
        = Block.text instructions_text ::
            ([("a.jpg").toList].flatMap (fun f =>
              [Block.image_url (data_url f), Block.text (caption_for f)])) ∧
    (batch_content [("a.jpg").toList] (fun f => f)).count
        (Block.text instructions_text) = 1 ∧
    image_urls (batch_content [("a.jpg").toList] (fun f => f))
        = [("a.jpg").toList].map (fun f => data_url f) :=
  batch_structure_in_listing_order _ _ (by decide)

/- ==================================================================
   Claim C6 — resize dimensions; binary64 rounding analysis
   ================================================================== -/

lemma roundHEN_bounds (a b : ℕ) (hb : 0 < b) :
    (a : ℚ) / b - 1 / 2 ≤ (roundHEN a b : ℚ) ∧
    (roundHEN a b : ℚ) ≤ (a : ℚ) / b + 1 / 2 := by
  have hb' : (0 : ℚ) < b := by exact_mod_cast hb
  have key : (a : ℚ) = b * ((a / b : ℕ) : ℚ) + ((a % b : ℕ) : ℚ) := by
    exact_mod_cast (Nat.div_add_mod a b).symm
  have expand : (a : ℚ) / b = ((a / b : ℕ) : ℚ) + ((a % b : ℕ) : ℚ) / b := by
    rw [key, add_div, mul_div_cancel_left₀ _ (ne_of_gt hb')]
  have hr0 : (0 : ℚ) ≤ ((a % b : ℕ) : ℚ) / b := by positivity
  have hr1 : ((a % b : ℕ) : ℚ) / b < 1 := by
    rw [div_lt_one hb']
    exact_mod_cast Nat.mod_lt a hb
  rw [roundHEN, expand]
  split_ifs with h1 h2 h3
  · have hc : ((a % b : ℕ) : ℚ) / b < 1 / 2 := by
      rw [div_lt_iff₀ hb']
      have : (2 : ℚ) * ((a % b : ℕ) : ℚ) < b := by exact_mod_cast h1
      linarith
    constructor <;> [linarith; linarith]
  · have hc : 1 / 2 ≤ ((a % b : ℕ) : ℚ) / b := by
      rw [le_div_iff₀ hb']
      have : (b : ℚ) < 2 * ((a % b : ℕ) : ℚ) := by exact_mod_cast h2
      linarith
    push_cast
    constructor <;> linarith
  · have he : 2 * (a % b) = b := by omega
    have hc : ((a % b : ℕ) : ℚ) / b = 1 / 2 := by
      rw [div_eq_iff (ne_of_gt hb')]
      have : (2 : ℚ) * ((a % b : ℕ) : ℚ) = b := by exact_mod_cast he
      linarith
    constructor <;> linarith
  · have he : 2 * (a % b) = b := by omega
    have hc : ((a % b : ℕ) : ℚ) / b = 1 / 2 := by
      rw [div_eq_iff (ne_of_gt hb')]
      have : (2 : ℚ) * ((a % b : ℕ) : ℚ) = b := by exact_mod_cast he
      linarith
    push_cast
    constructor <;> linarith

lemma ilog2Aux_bounds :
    ∀ fuel n : ℕ, n ≤ fuel → 1 ≤ n →
      2 ^ ilog2Aux fuel n ≤ n ∧ n < 2 ^ (ilog2Aux fuel n + 1) := by
  intro fuel
  induction fuel with
  | zero => intro n hn h1; omega
  | succ f ih =>
    intro n hn h1
    rw [ilog2Aux]
    split_ifs with hle
    · have : n = 1 := by omega
      subst this
      simp
    · obtain ⟨hA, hB⟩ := ih (n / 2) (by omega) (by omega)
      rw [pow_succ] at hB
      rw [pow_succ, pow_succ]
      omega

lemma ilog2_bounds (n : ℕ) (h1 : 1 ≤ n) :
    2 ^ ilog2 n ≤ n ∧ n < 2 ^ (ilog2 n + 1) :=
  ilog2Aux_bounds n n le_rfl h1

lemma zpow_sub_natCast (L s : ℕ) :
    (2 : ℚ) ^ ((L : ℤ) - (s : ℤ)) = (2 : ℚ) ^ L / (2 : ℚ) ^ s := by
  rw [zpow_sub₀ (by norm_num : (2 : ℚ) ≠ 0), zpow_natCast, zpow_natCast]

lemma flExpFrac_bounds (a b : ℕ) (ha : 0 < a) (hb : 0 < b) :
    (2 : ℚ) ^ flExpFrac a b ≤ (a : ℚ) / b ∧
    (a : ℚ) / b < (2 : ℚ) ^ (flExpFrac a b + 1) := by
  have hb' : (0 : ℚ) < b := by exact_mod_cast hb
  have hbs : b < 2 ^ (ilog2 b + 1) := (ilog2_bounds b hb).2
  have ht1 : 1 ≤ a * 2 ^ (ilog2 b + 1) / b := by
    rw [Nat.le_div_iff_mul_le hb, one_mul]
    calc b ≤ 2 ^ (ilog2 b + 1) := le_of_lt hbs
    _ ≤ a * 2 ^ (ilog2 b + 1) := Nat.le_mul_of_pos_left _ ha
  obtain ⟨hL1, hL2⟩ := ilog2_bounds _ ht1
  have hs2 : (0 : ℚ) < (2 : ℚ) ^ (ilog2 b + 1) := by positivity
  constructor
  · rw [flExpFrac, zpow_sub_natCast, div_le_div_iff₀ hs2 hb']
    have h1 : 2 ^ ilog2 (a * 2 ^ (ilog2 b + 1) / b) * b ≤ a * 2 ^ (ilog2 b + 1) :=
      (Nat.le_div_iff_mul_le hb).mp hL1
    exact_mod_cast h1
  · rw [flExpFrac,
      show (ilog2 (a * 2 ^ (ilog2 b + 1) / b) : ℤ) - ((ilog2 b + 1 : ℕ) : ℤ) + 1
          = ((ilog2 (a * 2 ^ (ilog2 b + 1) / b) + 1 : ℕ) : ℤ)
              - ((ilog2 b + 1 : ℕ) : ℤ) from by push_cast; ring,
      zpow_sub_natCast, div_lt_div_iff₀ hb' hs2]
    have h1 : a * 2 ^ (ilog2 b + 1)
        < 2 ^ (ilog2 (a * 2 ^ (ilog2 b + 1) / b) + 1) * b :=
      (Nat.div_lt_iff_lt_mul hb).mp hL2
    exact_mod_cast h1

/-- One rounding step: if the fraction `num/den` represents `x * 2 ^ (52 - e)`
with `2 ^ e ≤ x`, then `roundHEN num den * 2 ^ (e - 52)` is within relative
error `2 ^ (-53)` of `x`. -/
lemma round_scale_bounds (x : ℚ) (e : ℤ) (num den : ℕ) (hden : 0 < den)
    (hx : (num : ℚ) / den = x * (2 : ℚ) ^ ((52 : ℤ) - e))
    (hlow : (2 : ℚ) ^ e ≤ x) :
    x * (1 - 1 / 2 ^ 53) ≤ (roundHEN num den : ℚ) * (2 : ℚ) ^ (e - 52) ∧
    (roundHEN num den : ℚ) * (2 : ℚ) ^ (e - 52) ≤ x * (1 + 1 / 2 ^ 53) := by
  obtain ⟨h1, h2⟩ := roundHEN_bounds num den hden
  rw [hx] at h1 h2
  have hp : (0 : ℚ) < (2 : ℚ) ^ (e - 52) := zpow_pos (by norm_num) _
  have k1 : (2 : ℚ) ^ ((52 : ℤ) - e) * (2 : ℚ) ^ (e - 52) = 1 := by
    rw [← zpow_add₀ (by norm_num : (2 : ℚ) ≠ 0)]
    norm_num
  have k2 : (1 / 2 : ℚ) * (2 : ℚ) ^ (e - 52) = (2 : ℚ) ^ (e - 53) := by
    rw [show e - 53 = -1 + (e - 52) from by ring,
      zpow_add₀ (by norm_num : (2 : ℚ) ≠ 0), zpow_neg_one]
    norm_num
  have k3 : (2 : ℚ) ^ (e - 53) ≤ x * (1 / 2 ^ 53) := by
    rw [show e - 53 = e + -(53 : ℤ) from by ring,
      zpow_add₀ (by norm_num : (2 : ℚ) ≠ 0)]
    have h53 : (2 : ℚ) ^ (-(53 : ℤ)) = 1 / 2 ^ 53 := by
      rw [zpow_neg]
      norm_num
    rw [h53]
    exact mul_le_mul_of_nonneg_right hlow (by norm_num)
  constructor
  · have h3 := mul_le_mul_of_nonneg_right h1 (le_of_lt hp)
    have expand : (x * (2 : ℚ) ^ ((52 : ℤ) - e) - 1 / 2) * (2 : ℚ) ^ (e - 52)
        = x - (2 : ℚ) ^ (e - 53) := by
      rw [sub_mul, mul_assoc, k1, mul_one, k2]
    rw [expand] at h3
    nlinarith [k3]
  · have h3 := mul_le_mul_of_nonneg_right h2 (le_of_lt hp)
    have expand : (x * (2 : ℚ) ^ ((52 : ℤ) - e) + 1 / 2) * (2 : ℚ) ^ (e - 52)
        = x + (2 : ℚ) ^ (e - 53) := by
      rw [add_mul, mul_assoc, k1, mul_one, k2]
    rw [expand] at h3
    nlinarith [k3]

lemma flFrac_approx (a b : ℕ) (ha : 0 < a) (hb : 0 < b) :
    (a : ℚ) / b * (1 - 1 / 2 ^ 53) ≤ toRat (flFrac a b) ∧
    toRat (flFrac a b) ≤ (a : ℚ) / b * (1 + 1 / 2 ^ 53) := by
  have hlow := (flExpFrac_bounds a b ha hb).1
  rw [flFrac]
  split_ifs with hsh
  · have hx : ((a * 2 ^ (52 - flExpFrac a b).toNat : ℕ) : ℚ) / b
        = (a : ℚ) / b * (2 : ℚ) ^ ((52 : ℤ) - flExpFrac a b) := by
      push_cast
      rw [← zpow_natCast (2 : ℚ) ((52 - flExpFrac a b).toNat),
        Int.toNat_of_nonneg hsh, mul_div_right_comm]
    have h := round_scale_bounds ((a : ℚ) / b) (flExpFrac a b) _ b hb hx hlow
    simp only [toRat]
    exact_mod_cast h
  · have hge : (0 : ℤ) ≤ flExpFrac a b - 52 := by omega
    have hden : 0 < b * 2 ^ (flExpFrac a b - 52).toNat := by positivity
    have hzz : (2 : ℚ) ^ ((52 : ℤ) - flExpFrac a b)
        = ((2 : ℚ) ^ (flExpFrac a b - 52))⁻¹ := by
      rw [show (52 : ℤ) - flExpFrac a b = -(flExpFrac a b - 52) from by ring, zpow_neg]
    have hx : ((a : ℕ) : ℚ) / ((b * 2 ^ (flExpFrac a b - 52).toNat : ℕ) : ℚ)
        = (a : ℚ) / b * (2 : ℚ) ^ ((52 : ℤ) - flExpFrac a b) := by
      push_cast
      rw [← zpow_natCast (2 : ℚ) ((flExpFrac a b - 52).toNat),
        Int.toNat_of_nonneg hge, hzz, ← div_div, div_eq_mul_inv ((a : ℚ) / b)]
    have h := round_scale_bounds ((a : ℚ) / b) (flExpFrac a b) a _ hden hx hlow
    simp only [toRat]
    exact_mod_cast h

lemma flDyadic_approx (m : ℕ) (e : ℤ) (hm : 0 < m) :
    (m : ℚ) * (2 : ℚ) ^ e * (1 - 1 / 2 ^ 53) ≤ toRat (flDyadic m e) ∧
    toRat (flDyadic m e) ≤ (m : ℚ) * (2 : ℚ) ^ e * (1 + 1 / 2 ^ 53) := by
  rw [flDyadic]
  split_ifs with hk
  · simp only [toRat]
    push_cast
    have hpos : (0 : ℚ) < (m : ℚ) * (2 : ℚ) ^ e := by positivity
    constructor <;> nlinarith [hpos]
  · have h2k : 2 ^ ilog2 m ≤ m := (ilog2_bounds m hm).1
    have hzp : (0 : ℚ) < (2 : ℚ) ^ e := zpow_pos (by norm_num) e
    have hlow : (2 : ℚ) ^ (e + (ilog2 m : ℤ)) ≤ (m : ℚ) * 2 ^ e := by
      rw [zpow_add₀ (by norm_num : (2 : ℚ) ≠ 0)]
      have hK : (2 : ℚ) ^ (ilog2 m : ℤ) ≤ (m : ℚ) := by
        rw [zpow_natCast]
        exact_mod_cast h2k
      nlinarith [hzp, hK]
    have hsub : ((2 ^ (ilog2 m - 52) : ℕ) : ℚ)
        = (2 : ℚ) ^ ((ilog2 m : ℤ) - 52) := by
      push_cast
      rw [← zpow_natCast (2 : ℚ) (ilog2 m - 52)]
      congr 1
      omega
    have hone : (2 : ℚ) ^ e * (2 : ℚ) ^ ((52 : ℤ) - (e + ilog2 m))
        * (2 : ℚ) ^ ((ilog2 m : ℤ) - 52) = 1 := by
      rw [← zpow_add₀ (by norm_num : (2 : ℚ) ≠ 0),
        ← zpow_add₀ (by norm_num : (2 : ℚ) ≠ 0),
        show e + ((52 : ℤ) - (e + ilog2 m)) + ((ilog2 m : ℤ) - 52) = 0 from by ring,
        zpow_zero]
    have hx : ((m : ℕ) : ℚ) / ((2 ^ (ilog2 m - 52) : ℕ) : ℚ)
        = (m : ℚ) * (2 : ℚ) ^ e * (2 : ℚ) ^ ((52 : ℤ) - (e + ilog2 m)) := by
      rw [hsub, div_eq_iff (ne_of_gt (zpow_pos (by norm_num) _))]
      calc (m : ℚ)
          = (m : ℚ) * ((2 : ℚ) ^ e * (2 : ℚ) ^ ((52 : ℤ) - (e + ilog2 m))
              * (2 : ℚ) ^ ((ilog2 m : ℤ) - 52)) := by rw [hone, mul_one]
      _ = (m : ℚ) * (2 : ℚ) ^ e * (2 : ℚ) ^ ((52 : ℤ) - (e + ilog2 m))
            * (2 : ℚ) ^ ((ilog2 m : ℤ) - 52) := by ring
    have h := round_scale_bounds ((m : ℚ) * (2 : ℚ) ^ e) (e + ilog2 m) m
        (2 ^ (ilog2 m - 52)) (by positivity) hx hlow
    simp only [toRat]
    rw [show e + ((ilog2 m : ℤ) - 52) = e + ilog2 m - 52 from by ring]
    exact_mod_cast h

lemma floatD_approx (n : ℕ) (hn : 0 < n) :
    (n : ℚ) * (1 - 1 / 2 ^ 53) ≤ toRat (floatD n) ∧
    toRat (floatD n) ≤ (n : ℚ) * (1 + 1 / 2 ^ 53) := by
  have h := flDyadic_approx n 0 hn
  rw [floatD]
  simpa using h

lemma fmulD_approx (x y : D) (hx : 0 < x.m) (hy : 0 < y.m) :
    toRat x * toRat y * (1 - 1 / 2 ^ 53) ≤ toRat (fmulD x y) ∧
    toRat (fmulD x y) ≤ toRat x * toRat y * (1 + 1 / 2 ^ 53) := by
  rw [fmulD]
  have hp : 0 < x.m * y.m := mul_pos hx hy
  have hmn : 0 < (x.m * y.m).toNat := by omega
  have h := flDyadic_approx (x.m * y.m).toNat (x.e + y.e) hmn
  have hcast : (((x.m * y.m).toNat : ℕ) : ℚ) * (2 : ℚ) ^ (x.e + y.e)
      = toRat x * toRat y := by
    rw [toRat, toRat, zpow_add₀ (by norm_num : (2 : ℚ) ≠ 0)]
    have hc : (((x.m * y.m).toNat : ℕ) : ℚ) = (x.m : ℚ) * (y.m : ℚ) := by
      have h2 := Int.toNat_of_nonneg (le_of_lt hp)
      have h3 : (((x.m * y.m).toNat : ℤ) : ℚ) = ((x.m * y.m : ℤ) : ℚ) := by
        exact_mod_cast congrArg (fun z : ℤ => (z : ℚ)) h2
      push_cast at h3 ⊢
      linarith [h3]
    rw [hc]
    ring
  rw [hcast] at h
  exact h

lemma toRat_pos (d : D) : 0 < toRat d ↔ 0 < d.m := by
  rw [toRat]
  have hz : (0 : ℚ) < (2 : ℚ) ^ d.e := zpow_pos (by norm_num) d.e
  constructor
  · intro h
    by_contra hc
    push_neg at hc
    have : ((d.m : ℚ)) ≤ 0 := by exact_mod_cast hc
    nlinarith
  · intro h
    have : (0 : ℚ) < (d.m : ℚ) := by exact_mod_cast h
    exact mul_pos this hz

lemma truncD_floor (d : D) :
    (truncD d : ℚ) ≤ toRat d ∧ toRat d < (truncD d : ℚ) + 1 := by
  rw [truncD]
  split_ifs with he
  · have heq : ((d.m * 2 ^ d.e.toNat : ℤ) : ℚ) = toRat d := by
      rw [toRat]
      push_cast
      rw [← zpow_natCast (2 : ℚ) d.e.toNat, Int.toNat_of_nonneg he]
    rw [heq]
    exact ⟨le_refl _, by linarith⟩
  · have hD : (0 : ℤ) < 2 ^ (-d.e).toNat := by positivity
    have key := Int.ediv_add_emod d.m (2 ^ (-d.e).toNat)
    have h0 := Int.emod_nonneg d.m (ne_of_gt hD)
    have h1 := Int.emod_lt_of_pos d.m hD
    have htor : toRat d = (d.m : ℚ) / (((2 : ℤ) ^ (-d.e).toNat : ℤ) : ℚ) := by
      rw [toRat, eq_div_iff (by positivity)]
      push_cast
      rw [← zpow_natCast (2 : ℚ) (-d.e).toNat,
        Int.toNat_of_nonneg (by omega : (0 : ℤ) ≤ -d.e),
        mul_assoc, ← zpow_add₀ (by norm_num : (2 : ℚ) ≠ 0),
        show d.e + -d.e = 0 from by ring, zpow_zero, mul_one]
    rw [htor]
    have hDq : (0 : ℚ) < (((2 : ℤ) ^ (-d.e).toNat : ℤ) : ℚ) := by exact_mod_cast hD
    constructor
    · rw [le_div_iff₀ hDq]
      have h2 : (2 : ℤ) ^ (-d.e).toNat * (d.m / (2 : ℤ) ^ (-d.e).toNat) ≤ d.m := by
        linarith [key, h0]
      calc ((d.m / (2 : ℤ) ^ (-d.e).toNat : ℤ) : ℚ) * (((2 : ℤ) ^ (-d.e).toNat : ℤ) : ℚ)
          = (((2 : ℤ) ^ (-d.e).toNat * (d.m / (2 : ℤ) ^ (-d.e).toNat) : ℤ) : ℚ) := by
            push_cast
            ring
      _ ≤ (d.m : ℚ) := by exact_mod_cast h2
    · rw [div_lt_iff₀ hDq]
      have expand : (2 : ℤ) ^ (-d.e).toNat * (d.m / (2 : ℤ) ^ (-d.e).toNat + 1)
          = (2 : ℤ) ^ (-d.e).toNat * (d.m / (2 : ℤ) ^ (-d.e).toNat)
            + (2 : ℤ) ^ (-d.e).toNat := by ring
      have h2 : d.m < (2 : ℤ) ^ (-d.e).toNat * (d.m / (2 : ℤ) ^ (-d.e).toNat + 1) := by
        linarith [key, h1, expand]
      calc (d.m : ℚ)
          < (((2 : ℤ) ^ (-d.e).toNat * (d.m / (2 : ℤ) ^ (-d.e).toNat + 1) : ℤ) : ℚ) := by
            exact_mod_cast h2
      _ = (((d.m / (2 : ℤ) ^ (-d.e).toNat : ℤ) : ℚ) + 1) * (((2 : ℤ) ^ (-d.e).toNat : ℤ) : ℚ) := by
            push_cast
            ring

/-- C6 (counterexample): for the 4248 × 531 image the code computes
`4000 / 4248` and the two products in binary64, truncating to width 3999
and height 499; the claim predicts width 4000 and height
`floor(531 * 4000 / 4248) = 500`. -/
theorem resize_counterexample :
    resize_image ⟨531, 4248⟩ = ⟨499, 3999⟩ ∧
    531 * 4000 / 4248 = 500 ∧
    (499 : ℕ) ≠ 500 ∧
    (3999 : ℕ) ≠ 4000 := by decide

/-- C6 (amended): resizing leaves any image of width ≤ 4000 untouched; for
width > 4000 the output width is the binary64 value of `w * (4000 / w)`
truncated, which is 4000 or — when rounding falls just short — 3999, and
the output height is the truncated binary64 value of `h * (4000 / w)`. -/
theorem resize_noop_and_near_4000 :
    ∀ image : Mat,
      (image.w ≤ 4000 → resize_image image = image) ∧
      (4000 < image.w →
        (resize_image image).w = 4000 ∨ (resize_image image).w = 3999) ∧
      (4000 < image.w →
        (resize_image image).h
          = (truncD (fmulD (floatD image.h) (flFrac 4000 image.w))).toNat) := by
  intro image
  refine ⟨fun hle => ?_, fun hgt => ?_, fun hgt => ?_⟩
  · rw [resize_image, if_neg (by omega)]
  · have hw0 : 0 < image.w := by omega
    have heps1 : (0 : ℚ) < 1 - 1 / 2 ^ 53 := by norm_num
    have hApos : (0 : ℚ) < (4000 : ℚ) / image.w := by positivity
    obtain ⟨hr1, hr2⟩ := flFrac_approx 4000 image.w (by norm_num) hw0
    have hrpos : 0 < toRat (flFrac 4000 image.w) :=
      lt_of_lt_of_le (mul_pos hApos heps1) hr1
    obtain ⟨hw1, hw2⟩ := floatD_approx image.w hw0
    have hwQ : (0 : ℚ) < (image.w : ℚ) := by exact_mod_cast hw0
    have hwfpos : 0 < toRat (floatD image.w) :=
      lt_of_lt_of_le (mul_pos hwQ heps1) hw1
    obtain ⟨hp1, hp2⟩ := fmulD_approx (floatD image.w) (flFrac 4000 image.w)
      ((toRat_pos _).mp hwfpos) ((toRat_pos _).mp hrpos)
    have hkey : (image.w : ℚ) * ((4000 : ℚ) / image.w) = 4000 := by
      field_simp
    have hup : toRat (fmulD (floatD image.w) (flFrac 4000 image.w)) < 4001 := by
      have hb1 : toRat (floatD image.w) * toRat (flFrac 4000 image.w)
          ≤ ((image.w : ℚ) * (1 + 1 / 2 ^ 53))
            * (((4000 : ℚ) / image.w) * (1 + 1 / 2 ^ 53)) :=
        mul_le_mul hw2 hr2 (le_of_lt hrpos) (by positivity)
      have hb2 : ((image.w : ℚ) * (1 + 1 / 2 ^ 53))
            * (((4000 : ℚ) / image.w) * (1 + 1 / 2 ^ 53))
          = 4000 * (1 + 1 / 2 ^ 53) ^ 2 := by
        rw [show ((image.w : ℚ) * (1 + 1 / 2 ^ 53))
              * (((4000 : ℚ) / image.w) * (1 + 1 / 2 ^ 53))
            = (image.w : ℚ) * ((4000 : ℚ) / image.w) * (1 + 1 / 2 ^ 53) ^ 2
          from by ring, hkey]
      calc toRat (fmulD (floatD image.w) (flFrac 4000 image.w))
          ≤ toRat (floatD image.w) * toRat (flFrac 4000 image.w)
            * (1 + 1 / 2 ^ 53) := hp2
      _ ≤ 4000 * (1 + 1 / 2 ^ 53) ^ 2 * (1 + 1 / 2 ^ 53) := by
            rw [← hb2]
            exact mul_le_mul_of_nonneg_right hb1 (by norm_num)
      _ = 4000 * (1 + 1 / 2 ^ 53) ^ 3 := by ring
      _ < 4001 := by norm_num
    have hlo : (3999 : ℚ) < toRat (fmulD (floatD image.w) (flFrac 4000 image.w)) := by
      have hb1 : ((image.w : ℚ) * (1 - 1 / 2 ^ 53))
            * (((4000 : ℚ) / image.w) * (1 - 1 / 2 ^ 53))
          ≤ toRat (floatD image.w) * toRat (flFrac 4000 image.w) :=
        mul_le_mul hw1 hr1 (by positivity) (le_of_lt hwfpos)
      have hb2 : ((image.w : ℚ) * (1 - 1 / 2 ^ 53))
            * (((4000 : ℚ) / image.w) * (1 - 1 / 2 ^ 53))
          = 4000 * (1 - 1 / 2 ^ 53) ^ 2 := by
        rw [show ((image.w : ℚ) * (1 - 1 / 2 ^ 53))
              * (((4000 : ℚ) / image.w) * (1 - 1 / 2 ^ 53))
            = (image.w : ℚ) * ((4000 : ℚ) / image.w) * (1 - 1 / 2 ^ 53) ^ 2
          from by ring, hkey]
      calc (3999 : ℚ) < 4000 * (1 - 1 / 2 ^ 53) ^ 3 := by norm_num
      _ = 4000 * (1 - 1 / 2 ^ 53) ^ 2 * (1 - 1 / 2 ^ 53) := by ring
      _ ≤ toRat (floatD image.w) * toRat (flFrac 4000 image.w)
            * (1 - 1 / 2 ^ 53) := by
            rw [← hb2]
            exact mul_le_mul_of_nonneg_right hb1 (by norm_num)
      _ ≤ toRat (fmulD (floatD image.w) (flFrac 4000 image.w)) := hp1
    obtain ⟨ht1, ht2⟩ := truncD_floor (fmulD (floatD image.w) (flFrac 4000 image.w))
    have hz1 : truncD (fmulD (floatD image.w) (flFrac 4000 image.w)) ≤ 4000 := by
      by_contra hc
      push_neg at hc
      have : (4001 : ℚ) ≤ (truncD (fmulD (floatD image.w) (flFrac 4000 image.w)) : ℚ) := by
        exact_mod_cast hc
      linarith
    have hz2 : 3999 ≤ truncD (fmulD (floatD image.w) (flFrac 4000 image.w)) := by
      by_contra hc
      push_neg at hc
      have : (truncD (fmulD (floatD image.w) (flFrac 4000 image.w)) : ℚ) + 1 ≤ 3999 := by
        exact_mod_cast (by omega : truncD (fmulD (floatD image.w) (flFrac 4000 image.w)) + 1 ≤ 3999)
      linarith
    rw [resize_image, if_pos hgt]
    have hcase : truncD (fmulD (floatD image.w) (flFrac 4000 image.w)) = 4000 ∨
        truncD (fmulD (floatD image.w) (flFrac 4000 image.w)) = 3999 := by omega
    rcases hcase with h | h
    · left
      show (truncD (fmulD (floatD image.w) (flFrac 4000 image.w))).toNat = 4000
      rw [h]
      rfl
    · right
      show (truncD (fmulD (floatD image.w) (flFrac 4000 image.w))).toNat = 3999
      rw [h]
      rfl
  · rw [resize_image, if_pos hgt]

/-- C6 (witness): both branches of the amended statement at concrete images. -/
theorem resize_noop_and_near_4000_witness :
    resize_image ⟨100, 2000⟩ = ⟨100, 2000⟩ ∧
    ((resize_image ⟨531, 4248⟩).w = 4000 ∨ (resize_image ⟨531, 4248⟩).w = 3999) ∧
    (resize_image ⟨531, 4248⟩).h
      = (truncD (fmulD (floatD (Mat.mk 531 4248).h) (flFrac 4000 (Mat.mk 531 4248).w))).toNat :=
  ⟨(resize_noop_and_near_4000 ⟨100, 2000⟩).1 (by decide),
   (resize_noop_and_near_4000 ⟨531, 4248⟩).2.1 (by decide),
   (resize_noop_and_near_4000 ⟨531, 4248⟩).2.2 (by decide)⟩
